import Mathlib

/-!
Verification of the nostree document synchronization and addressing engine.

The definitions below are a shallow embedding of the TypeScript source:
  * `src/lib/slug-resolver.ts`   — slug/d-tag derivation, NIP-05 resolution
  * `src/lib/ndk.ts`             — publish result computation
  * `src/lib/migration.ts`       — schema v1 → v2 migration
  * `src/hooks/useLinkTree.ts`   — document mutations (move/delete/...)
  * `src/components/client/SlugTreeViewer.tsx` — slug discovery, tree cache

JavaScript strings are modelled as Lean `String` (with list-of-char
manipulation for slicing), JS numbers holding timestamps/counts as `Nat`,
absent/undefined values as `Option`, and JSON objects as association lists
in key-insertion order (matching JS string-key enumeration order).
-/

namespace Nostree

/-! ## Data model (src/schemas/nostr: Link, LinkGroup, TreeMeta, NostreeData) -/

/-- A single link item (schema `Link`): opaque id, title, url, optional
emoji, visibility flag. -/
structure Link where
  id : String
  title : String
  url : String
  emoji : Option String
  visible : Bool
deriving DecidableEq, Repr

/-- A group of links (schema `LinkGroup`): groups hold a flat list of
`Link`s and do not nest. -/
structure LinkGroup where
  id : String
  title : String
  emoji : Option String
  collapsed : Bool
  visible : Bool
  links : List Link
deriving DecidableEq, Repr

/-- A document item is either a plain link or a group (the TS code
discriminates with `'type' in item && item.type === 'group'`). -/
inductive LinkItem where
  | link (l : Link)
  | group (g : LinkGroup)
deriving DecidableEq, Repr

/-- Profile override fields layered over external identity metadata. -/
structure ProfileOverride where
  name : Option String
  bio : Option String
  picture : Option String
  headerImage : Option String
  show_verification : Option Bool
deriving DecidableEq, Repr

/-- Theme colors. -/
structure ThemeColors where
  background : String
  foreground : String
  primary : String
  radius : String
deriving DecidableEq, Repr

/-- Theme: mode, color set, font. -/
structure Theme where
  mode : String
  colors : ThemeColors
  font : String
deriving DecidableEq, Repr

/-- Social entry: platform + url. -/
structure Social where
  platform : String
  url : String
deriving DecidableEq, Repr

/-- Tree metadata of a v2 document. -/
structure TreeMeta where
  slug : String
  title : Option String
  isDefault : Bool
  createdAt : Nat
  deletedAt : Option Nat
deriving DecidableEq, Repr

/-- Legacy (version "1.0") document shape (`NostreeDataV1`): no
`treeMeta`; carries its literal `version` tag. -/
structure NostreeDataV1 where
  version : String
  profile : Option ProfileOverride
  links : List LinkItem
  socials : List Social
  theme : Theme
deriving DecidableEq, Repr

/-- Current (version "2.0") document shape (`NostreeDataV2`). -/
structure NostreeDataV2 where
  version : String
  treeMeta : TreeMeta
  profile : Option ProfileOverride
  links : List LinkItem
  socials : List Social
  theme : Theme
deriving DecidableEq, Repr

/-! ## Slug / storage-key derivation (src/lib/slug-resolver.ts) -/

/-- `NOSTREE_PREFIX` constant. -/
def NOSTREE_PREFIX : String := "nostree"

/-- `DEFAULT_SLUG` constant. -/
def DEFAULT_SLUG : String := "default"

/-- `slugToDTag(slug)`: returns `` `${NOSTREE_PREFIX}/${slug}` ``. -/
def slugToDTag (slug : String) : String :=
  NOSTREE_PREFIX ++ "/" ++ slug

/-- `dTagToSlug(dTag)` from slug-resolver.ts lines 37–46: strips the
`"nostree/"` prefix (JS `startsWith` + `slice(prefix.length + 1)`,
modelled on the character list), maps the legacy key `"nostree-data-v1"`
to the default slug, and returns null otherwise. -/
def dTagToSlug (dTag : String) : Option String :=
  if dTag.toList.take (NOSTREE_PREFIX.length + 1) = (NOSTREE_PREFIX ++ "/").toList then
    some (String.mk (dTag.toList.drop (NOSTREE_PREFIX.length + 1)))
  else if dTag = "nostree-data-v1" then
    some DEFAULT_SLUG
  else
    none

/-- The d-tag computed by `useLinkTree` (useLinkTree.ts line 208), used
both for the session load query and for publishing:
`slug === DEFAULT_SLUG ? "nostree-data-v1" : slugToDTag(slug)`. -/
def useLinkTree_dTag (slug : String) : String :=
  if slug = DEFAULT_SLUG then "nostree-data-v1" else slugToDTag slug

/-- The d-tag computed by the global slug discovery path
(SlugTreeViewer.tsx line 82): `slugToDTag(slug)` with no special case
for the default slug. -/
def slugTreeViewer_dTag (slug : String) : String :=
  slugToDTag slug

/-! ## Publish result (src/lib/ndk.ts, publishEvent) -/

/-- The configured write relay set (`WRITE_RELAYS`). -/
def WRITE_RELAYS : List String :=
  ["wss://relay.damus.io", "wss://nos.lol", "wss://relay.nostr.band"]

/-- Result record returned by `publishEvent`. -/
structure PublishResult where
  success : Bool
  relaysAccepted : Nat
  relaysTotal : Nat
deriving DecidableEq, Repr

/-- Outcome of the underlying `event.publish()` call: either the set of
accepting relays had size `accepted`, or the call threw (transport
error), which the code catches. -/
inductive PublishAttempt where
  | ok (accepted : Nat)
  | transportError
deriving DecidableEq, Repr

/-- `publishEvent` result computation (ndk.ts lines 412–433): on a
completed publish, `success = accepted >= ceil(total/2) || accepted > 0`
with `total = WRITE_RELAYS.length`; on a thrown error, the catch block
returns `success = false` with zero accepted. -/
def publishEvent (attempt : PublishAttempt) : PublishResult :=
  match attempt with
  | .ok accepted =>
    let total := WRITE_RELAYS.length
    let quorum := (total + 1) / 2
    { success := decide (quorum ≤ accepted) || decide (0 < accepted)
      relaysAccepted := accepted
      relaysTotal := total }
  | .transportError =>
    { success := false
      relaysAccepted := 0
      relaysTotal := WRITE_RELAYS.length }

/-! ## Migration (src/lib/migration.ts, concatenated into Card.tsx) -/

/-- `migrateV1toV2(data, slug)`: builds a v2 document with
`version: "2.0"`, a fresh `treeMeta` (title from the legacy profile name
via JS `data.profile?.name || undefined`, which maps an empty-string name
to undefined), and the legacy `profile`/`links`/`socials`/`theme` carried
over unchanged.  `now` models the impure `Date.now()` call. -/
def migrateV1toV2 (data : NostreeDataV1) (slug : String) (now : Nat) : NostreeDataV2 :=
  { version := "2.0"
    treeMeta :=
      { slug := slug
        title := (data.profile.bind ProfileOverride.name).bind
          (fun n => if n = "" then none else some n)
        isDefault := slug = DEFAULT_SLUG
        createdAt := now
        deletedAt := none }
    profile := data.profile
    links := data.links
    socials := data.socials
    theme := data.theme }

/-! ## updateTreeMeta (src/hooks/useLinkTree.ts lines 694–750) -/

/-- A `Partial<TreeMeta>` update object: each field is present
(`some`) or absent (`none`). -/
structure TreeMetaPatch where
  slug : Option String
  title : Option String
  isDefault : Option Bool
  createdAt : Option Nat
  deletedAt : Option Nat
deriving DecidableEq, Repr

/-- The document transformation performed by `updateTreeMeta`:
`{...currentData, treeMeta: {...currentData.treeMeta, ...updates,
slug: currentData.treeMeta.slug}}` — spread of the updates over the
current metadata, with the slug explicitly reset to the current slug
("Don't allow overwriting slug from updates"). -/
def updateTreeMeta_data (d : NostreeDataV2) (p : TreeMetaPatch) : NostreeDataV2 :=
  { d with
    treeMeta :=
      { slug := d.treeMeta.slug
        title := match p.title with | some t => some t | none => d.treeMeta.title
        isDefault := p.isDefault.getD d.treeMeta.isDefault
        createdAt := p.createdAt.getD d.treeMeta.createdAt
        deletedAt := match p.deletedAt with | some t => some t | none => d.treeMeta.deletedAt } }

/-! ## Relay events and newest-document selection
(useLinkTree.ts lines 229–248 and SlugTreeViewer.tsx lines 100–105 both
run `Array.from(events).sort((a, b) => (b.created_at || 0) - (a.created_at || 0))`
and take element 0; `created_at` may be undefined, defaulting to 0.) -/

/-- A fetched relay event (the fields the selection logic reads). -/
structure NostrEvent where
  created_at : Option Nat
  pubkey : String
  content : String
deriving DecidableEq, Repr

/-- Sort key: `e.created_at || 0`. -/
def eventKey (e : NostrEvent) : Nat := e.created_at.getD 0

/-- Stable insertion into a descending-by-key list: the new element goes
before the first strictly-smaller key and after equal keys reached from
the left, matching the ECMAScript stable-sort contract for the
comparator `(b.created_at || 0) - (a.created_at || 0)`. -/
def insertDesc (e : NostrEvent) : List NostrEvent → List NostrEvent
  | [] => [e]
  | x :: xs => if eventKey x ≤ eventKey e then e :: x :: xs else x :: insertDesc e xs

/-- Stable descending sort by `created_at` (the `.sort(...)` call of both
load paths). -/
def sortDesc : List NostrEvent → List NostrEvent
  | [] => []
  | x :: xs => insertDesc x (sortDesc xs)

/-- `sorted[0]`: the event both load paths resolve to (none when the
fetched set is empty). -/
def selectLatest (events : List NostrEvent) : Option NostrEvent :=
  (sortDesc events).head?

/-! ## NIP-05 resolution (src/lib/slug-resolver.ts lines 59–88) -/

/-- A JSON value found under `names.<localPart>`: a string or something
that is not a string (the code checks `typeof pubkey === "string"`). -/
inductive JsonValue where
  | str (s : String)
  | nonString
deriving DecidableEq, Repr

/-- The parsed well-known HTTP response: the `response.ok` flag and the
optional `names` object, modelled as an association list in key order
(JS object lookup `data?.names?.[localPart]` is a case-sensitive exact
key match). -/
structure WellKnownResponse where
  ok : Bool
  names : Option (List (String × JsonValue))
deriving DecidableEq, Repr

/-- Outcome of the `fetch` + `response.json()` pair: `failure` covers a
network error, a timeout, or a body that throws during JSON parsing (all
caught by the surrounding try/catch), `success` a parsed response. -/
inductive FetchOutcome where
  | failure
  | success (r : WellKnownResponse)
deriving DecidableEq, Repr

/-- JS `String.prototype.split(sep)` for a one-character separator,
modelled on the character list ("" splits to [""], trailing separators
produce a trailing empty segment). -/
def splitOnChar (sep : Char) : List Char → List (List Char)
  | [] => [[]]
  | c :: cs =>
    let r := splitOnChar sep cs
    if c = sep then [] :: r
    else
      match r with
      | [] => [[c]]
      | h :: t => (c :: h) :: t

/-- `const localPart = name || "_"`. -/
def localPartOf (name : String) : String :=
  if name = "" then "_" else name

/-- The response-processing tail of `resolveNip05`: null on fetch
failure or a non-ok status, then read `data?.names?.[localPart]` and
return the value only when it is a string of length exactly 64. -/
def lookupPubkey (localPart : String) (outcome : FetchOutcome) : Option String :=
  match outcome with
  | .failure => none
  | .success r =>
    if r.ok then
      match r.names with
      | some ns =>
        match ns.find? (fun p => p.1 = localPart) with
        | some (_, .str pk) => if pk.length = 64 then some pk else none
        | _ => none
      | none => none
    else none

/-- `resolveNip05(identifier)`: splits the identifier on "@" and requires
exactly two parts, performs the well-known lookup (abstracted as the
`fetch` oracle keyed by domain and query name) and processes the
response with `lookupPubkey`; every other outcome — including any thrown
error, which the surrounding try/catch swallows — yields null. -/
def resolveNip05 (identifier : String)
    (fetch : String → String → FetchOutcome) : Option String :=
  match (splitOnChar '@' identifier.toList).map String.mk with
  | [name, domain] => lookupPubkey (localPartOf name) (fetch domain (localPartOf name))
  | _ => none

/-- Lowercase-hex check (the property the spec claims of returned keys;
the source never performs this check). -/
def isLowercaseHex (s : String) : Bool :=
  s.toList.all (fun c => ('0' ≤ c && c ≤ '9') || ('a' ≤ c && c ≤ 'f'))

/-! ## Slug-document tree cache (SlugTreeViewer.tsx lines 13–40)
The cache lives in one localStorage JSON object; a JS object with string
keys enumerates keys in insertion order, so it is modelled as an
association list in key-insertion order with unique keys. -/

/-- One cache entry: the cached tree plus its insertion timestamp. -/
structure CacheEntry where
  data : NostreeDataV2
  ts : Nat
deriving DecidableEq, Repr

/-- The tree cache object: keys (slugs) with entries, in insertion order. -/
abbrev TreeCache := List (String × CacheEntry)

/-- `TREE_CACHE_TTL = 30000` milliseconds. -/
def TREE_CACHE_TTL : Nat := 30000

/-- `getCachedTree(slug)`: look the slug up and return the entry's data
only while `now - entry.ts < TREE_CACHE_TTL`. -/
def getCachedTree (cache : TreeCache) (now : Nat) (slug : String) : Option NostreeDataV2 :=
  match cache.find? (fun p => p.1 = slug) with
  | some p => if now - p.2.ts < TREE_CACHE_TTL then some p.2.data else none
  | none => none

/-- The entry selected for eviction:
`Object.keys(cache).sort((a, b) => cache[a].ts - cache[b].ts)[0]` — the
head of a stable ascending sort by insertion timestamp, i.e. the
earliest-inserted key among those with the minimal timestamp. -/
def oldestEntry : TreeCache → Option (String × CacheEntry)
  | [] => none
  | p :: rest =>
    match oldestEntry rest with
    | none => some p
    | some q => if p.2.ts ≤ q.2.ts then some p else some q

/-- `cache[slug] = {data, ts}` on a JS object: replace in place when the
key exists, append otherwise. -/
def setKey (cache : TreeCache) (k : String) (e : CacheEntry) : TreeCache :=
  if cache.any (fun p => p.1 = k) then
    cache.map (fun p => if p.1 = k then (k, e) else p)
  else cache ++ [(k, e)]

/-- The eviction step of `setCachedTree`: when the cache already holds at
least 10 keys, delete the entry selected by `oldestEntry`. -/
def evictIfFull (cache : TreeCache) : TreeCache :=
  if 10 ≤ cache.length then
    match oldestEntry cache with
    | some q => cache.filter (fun p => p.1 ≠ q.1)
    | none => cache
  else cache

/-- `setCachedTree(slug, data)`: evict when at capacity, then store the
new entry stamped with the current time. -/
def setCachedTree (cache : TreeCache) (now : Nat) (slug : String)
    (d : NostreeDataV2) : TreeCache :=
  setKey (evictIfFull cache) slug { data := d, ts := now }

/-! ## Link-tree mutations (src/hooks/useLinkTree.ts)
`moveToGroup` (lines 534–584, also the `move_to_group` reducer case at
lines 94–136) and `deleteGroup` (lines 490–511). -/

/-- The links contributed by one item (its own link, or a group's
contained links). -/
def linksOfItem : LinkItem → List Link
  | .link l => [l]
  | .group g => g.links

/-- All `Link` values in the document, in document order (root links and
group contents interleaved). -/
def allLinksOf : List LinkItem → List Link
  | [] => []
  | it :: rest => linksOfItem it ++ allLinksOf rest

/-- Whether an item is a group carrying the given id. -/
def isGroupWithId (gid : String) : LinkItem → Bool
  | .group g => g.id = gid
  | .link _ => false

/-- Whether an item is a root-level link carrying the given id. -/
def isRootLinkWithId (linkId : String) : LinkItem → Bool
  | .link l => l.id = linkId
  | .group _ => false

/-- Phase 1 of `moveToGroup` — the `filter` over the state: every
root-level link with the id is removed, and `linkToMove` ends up holding
the last such link assigned during the left-to-right pass (`c.getD l`
keeps a later match over the current one). -/
def extractRootLink (linkId : String) : List LinkItem → List LinkItem × Option Link
  | [] => ([], none)
  | .group g :: rest =>
    (LinkItem.group g :: (extractRootLink linkId rest).1, (extractRootLink linkId rest).2)
  | .link l :: rest =>
    if l.id = linkId then
      ((extractRootLink linkId rest).1, some ((extractRootLink linkId rest).2.getD l))
    else
      (LinkItem.link l :: (extractRootLink linkId rest).1, (extractRootLink linkId rest).2)

/-- Phase 2 of `moveToGroup` — the `map` over the filtered state: a group
in which `find` locates the id has that id filtered out of its links and
overwrites `linkToMove` (again the last matching group of the
left-to-right pass wins); all other items pass through unchanged. -/
def extractFromGroups (linkId : String) : List LinkItem → List LinkItem × Option Link
  | [] => ([], none)
  | .link l :: rest =>
    (LinkItem.link l :: (extractFromGroups linkId rest).1, (extractFromGroups linkId rest).2)
  | .group g :: rest =>
    match g.links.find? (fun l => l.id = linkId) with
    | some found =>
      (LinkItem.group { g with links := g.links.filter (fun l => l.id ≠ linkId) }
          :: (extractFromGroups linkId rest).1,
        some ((extractFromGroups linkId rest).2.getD found))
    | none =>
      (LinkItem.group g :: (extractFromGroups linkId rest).1, (extractFromGroups linkId rest).2)

/-- The `linkToMove` value after both passes: a group capture overwrites
the root capture. -/
def moveCaptured (linkId : String) (state : List LinkItem) : Option Link :=
  (extractFromGroups linkId (extractRootLink linkId state).1).2.orElse
    (fun _ => (extractRootLink linkId state).2)

/-- The `withoutLink` array after both passes. -/
def moveRemoved (linkId : String) (state : List LinkItem) : List LinkItem :=
  (extractFromGroups linkId (extractRootLink linkId state).1).1

/-- `moveToGroup(linkId, groupId|null)`: extract the link; when nothing
was found, return (leaving the document unchanged); otherwise append the
link at root level (null target) or into every group whose id matches
the target. -/
def moveToGroup (state : List LinkItem) (linkId : String) (groupId : Option String) :
    List LinkItem :=
  match moveCaptured linkId state with
  | none => state
  | some l =>
    match groupId with
    | none => moveRemoved linkId state ++ [LinkItem.link l]
    | some gid =>
      (moveRemoved linkId state).map (fun it =>
        match it with
        | .group g =>
          if g.id = gid then LinkItem.group { g with links := g.links ++ [l] }
          else LinkItem.group g
        | x => x)

/-- Spec-side description of one item after link removal: groups lose
every contained link with the id; links pass through. -/
def cleanGroupsItem (linkId : String) : LinkItem → LinkItem
  | .group g => .group { g with links := g.links.filter (fun l => l.id ≠ linkId) }
  | .link l => .link l

/-- Spec-side removal of the link "from wherever it currently resides":
drop it from the root level and from every group. -/
def removeLinkEverywhere (linkId : String) (state : List LinkItem) : List LinkItem :=
  (state.filter (fun it => !(isRootLinkWithId linkId it))).map (cleanGroupsItem linkId)

/-- Spec-side append of a link to the target: the root when the target is
null, otherwise the group with the target id. -/
def addToTarget (items : List LinkItem) (target : Option String) (l : Link) : List LinkItem :=
  match target with
  | none => items ++ [LinkItem.link l]
  | some gid =>
    items.map (fun it =>
      match it with
      | .group g =>
        if g.id = gid then LinkItem.group { g with links := g.links ++ [l] }
        else LinkItem.group g
      | x => x)

/-- The `filter` of `deleteGroup`: every group with the id is removed and
`linksToMove` ends up holding the links of the last matching group of
the left-to-right pass (`c.getD g.links` keeps a later match). -/
def extractGroupLinks (gid : String) : List LinkItem → List LinkItem × Option (List Link)
  | [] => ([], none)
  | .link l :: rest =>
    (LinkItem.link l :: (extractGroupLinks gid rest).1, (extractGroupLinks gid rest).2)
  | .group g :: rest =>
    if g.id = gid then
      ((extractGroupLinks gid rest).1, some ((extractGroupLinks gid rest).2.getD g.links))
    else
      (LinkItem.group g :: (extractGroupLinks gid rest).1, (extractGroupLinks gid rest).2)

/-- `deleteGroup(id)`: remove the group and append its links (an
initially empty array when no group matched) at the root level. -/
def deleteGroup (state : List LinkItem) (gid : String) : List LinkItem :=
  (extractGroupLinks gid state).1 ++
    ((extractGroupLinks gid state).2.getD []).map LinkItem.link

end Nostree

namespace Nostree

/-! ## Claim theorems (first group) -/

/-- C2: `publishEvent` reports success iff at least one write target
acknowledged: the returned record has `success = true` exactly when
`relaysAccepted ≥ 1`, and a transport error yields `success = false`
with `relaysAccepted = 0`. -/
theorem publishEvent_success_iff (a : PublishAttempt) :
    ((publishEvent a).success = true ↔ 1 ≤ (publishEvent a).relaysAccepted) ∧
    (publishEvent PublishAttempt.transportError).success = false ∧
    (publishEvent PublishAttempt.transportError).relaysAccepted = 0 := by
  refine ⟨?_, rfl, rfl⟩
  cases a with
  | ok n =>
    simp only [publishEvent, WRITE_RELAYS, List.length_cons, List.length_nil,
      Bool.or_eq_true, decide_eq_true_eq]
    omega
  | transportError =>
    simp [publishEvent]

/-- C3: migrating a valid legacy (version "1.0") document yields a
document whose version is the current "2.0" and whose links array is
exactly the legacy links array. -/
theorem migrateV1toV2_version_links (L : NostreeDataV1) (s : String) (now : Nat)
    (hv : L.version = "1.0") :
    (migrateV1toV2 L s now).version = "2.0" ∧
    (migrateV1toV2 L s now).links = L.links :=
  ⟨rfl, rfl⟩

/-- Witness for C3 at a concrete legacy document. -/
theorem migrateV1toV2_version_links_witness :
    (migrateV1toV2
      { version := "1.0", profile := none, links := [], socials := [],
        theme := { mode := "light",
                   colors := { background := "#fff", foreground := "#000",
                               primary := "#000", radius := "0.5rem" },
                   font := "Inter" } }
      "default" 0).version = "2.0" :=
  (migrateV1toV2_version_links _ "default" 0 rfl).1

/-- C9: `updateTreeMeta` never changes the document's slug — for every
current document and every partial update (including one carrying a
`slug` field) the produced document keeps the prior slug, and every
field outside `treeMeta` (version, profile, links, socials, theme) is
unchanged. -/
theorem updateTreeMeta_slug_immutable (d : NostreeDataV2) (p : TreeMetaPatch) :
    (updateTreeMeta_data d p).treeMeta.slug = d.treeMeta.slug ∧
    (updateTreeMeta_data d p).version = d.version ∧
    (updateTreeMeta_data d p).profile = d.profile ∧
    (updateTreeMeta_data d p).links = d.links ∧
    (updateTreeMeta_data d p).socials = d.socials ∧
    (updateTreeMeta_data d p).theme = d.theme :=
  ⟨rfl, rfl, rfl, rfl, rfl, rfl⟩

/-- C7 counterexample: the global slug discovery path (SlugTreeViewer)
derives `"nostree/default"` for the default slug — not the fixed
historical key `"nostree-data-v1"` that the claim requires on every
key-deriving code path. -/
theorem slugTreeViewer_dTag_default_cex :
    slugTreeViewer_dTag DEFAULT_SLUG = "nostree/default" ∧
    slugTreeViewer_dTag DEFAULT_SLUG ≠ "nostree-data-v1" := by
  decide

/-- C7 (amended): the session-load/publish path (`useLinkTree`) maps the
default slug to the historical key `"nostree-data-v1"` and every other
slug to `"nostree/" ++ slug`, while the global slug discovery path
(`SlugTreeViewer`) maps every slug — the default included — to
`"nostree/" ++ slug` with no special case. -/
theorem storage_key_derivation (s : String) (hs : s ≠ DEFAULT_SLUG) :
    useLinkTree_dTag DEFAULT_SLUG = "nostree-data-v1" ∧
    useLinkTree_dTag s = NOSTREE_PREFIX ++ "/" ++ s ∧
    slugTreeViewer_dTag s = NOSTREE_PREFIX ++ "/" ++ s ∧
    slugTreeViewer_dTag DEFAULT_SLUG = NOSTREE_PREFIX ++ "/" ++ DEFAULT_SLUG := by
  refine ⟨by decide, ?_, rfl, rfl⟩
  unfold useLinkTree_dTag
  rw [if_neg hs]
  rfl

/-- Witness for the amended C7 statement at the slug "portfolio". -/
theorem storage_key_derivation_witness :
    useLinkTree_dTag DEFAULT_SLUG = "nostree-data-v1" ∧
    useLinkTree_dTag "portfolio" = NOSTREE_PREFIX ++ "/" ++ "portfolio" ∧
    slugTreeViewer_dTag "portfolio" = NOSTREE_PREFIX ++ "/" ++ "portfolio" ∧
    slugTreeViewer_dTag DEFAULT_SLUG = NOSTREE_PREFIX ++ "/" ++ DEFAULT_SLUG :=
  storage_key_derivation "portfolio" (by decide)

/-- C10: slug/d-tag encoding round-trips — `dTagToSlug (slugToDTag s) = s`
for every slug, the legacy key decodes to the default slug, and any
d-tag that neither bears the `"nostree/"` prefix nor equals the legacy
key decodes to none. -/
theorem dTagToSlug_roundTrip :
    (∀ s : String, dTagToSlug (slugToDTag s) = some s) ∧
    dTagToSlug "nostree-data-v1" = some DEFAULT_SLUG ∧
    (∀ t : String,
      t.toList.take (NOSTREE_PREFIX.length + 1) ≠ (NOSTREE_PREFIX ++ "/").toList →
      t ≠ "nostree-data-v1" → dTagToSlug t = none) := by
  refine ⟨?_, by decide, ?_⟩
  · intro s
    have h1 : (slugToDTag s).toList = (NOSTREE_PREFIX ++ "/").toList ++ s.toList := by
      cases s
      rfl
    have hl : NOSTREE_PREFIX.length + 1 = (NOSTREE_PREFIX ++ "/").toList.length := by
      decide
    unfold dTagToSlug
    rw [h1, hl, List.take_left, if_pos rfl, List.drop_left]
    cases s
    rfl
  · intro t h1 h2
    unfold dTagToSlug
    rw [if_neg h1, if_neg h2]

/-- Witness for C10 at concrete inputs: the round trip at "portfolio" and
the null branch at "other-tag". -/
theorem dTagToSlug_roundTrip_witness :
    dTagToSlug (slugToDTag "portfolio") = some "portfolio" ∧
    dTagToSlug "other-tag" = none :=
  ⟨dTagToSlug_roundTrip.1 "portfolio",
   dTagToSlug_roundTrip.2.2 "other-tag" (by decide) (by decide)⟩

/-- Membership through `insertDesc`. -/
theorem mem_insertDesc (a e : NostrEvent) (l : List NostrEvent) :
    a ∈ insertDesc e l ↔ a = e ∨ a ∈ l := by
  induction l with
  | nil => simp [insertDesc]
  | cons x xs ih =>
    unfold insertDesc
    by_cases h : eventKey x ≤ eventKey e
    · simp [h]
    · simp only [if_neg h, List.mem_cons, ih]
      tauto

/-- Membership through `sortDesc`. -/
theorem mem_sortDesc (a : NostrEvent) (l : List NostrEvent) :
    a ∈ sortDesc l ↔ a ∈ l := by
  induction l with
  | nil => simp [sortDesc]
  | cons x xs ih => simp [sortDesc, mem_insertDesc, ih]

/-- The head of the descending sort dominates every element. -/
theorem sortDesc_head_bound (l : List NostrEvent) (hne : l ≠ []) :
    ∃ h t, sortDesc l = h :: t ∧ ∀ y ∈ l, eventKey y ≤ eventKey h := by
  induction l with
  | nil => exact absurd rfl hne
  | cons x xs ih =>
    cases xs with
    | nil =>
      exact ⟨x, [], rfl, by simp⟩
    | cons b bs =>
      obtain ⟨h, t, hst, hbound⟩ := ih (by simp)
      show ∃ h' t', insertDesc x (sortDesc (b :: bs)) = h' :: t' ∧ _
      rw [hst]
      by_cases hc : eventKey h ≤ eventKey x
      · refine ⟨x, h :: t, by simp [insertDesc, hc], ?_⟩
        intro y hy
        rcases List.mem_cons.mp hy with rfl | hy'
        · exact le_refl _
        · exact le_trans (hbound y hy') hc
      · refine ⟨h, insertDesc x t, by simp [insertDesc, hc], ?_⟩
        intro y hy
        rcases List.mem_cons.mp hy with rfl | hy'
        · exact le_of_lt (lt_of_not_le hc)
        · exact hbound y hy'

/-- C1: for every fetched event list containing two documents with
timestamps t1 < t2, the load/resolution logic (descending sort by
`created_at || 0`, then take the first) selects an event of the list
whose timestamp dominates every fetched event — in particular never the
older of the two. -/
theorem selectLatest_newest_wins (l : List NostrEvent) (e1 e2 : NostrEvent)
    (h1 : e1 ∈ l) (h2 : e2 ∈ l) (hlt : eventKey e1 < eventKey e2) :
    ∃ e, selectLatest l = some e ∧ e ∈ l ∧
      (∀ y ∈ l, eventKey y ≤ eventKey e) ∧ e ≠ e1 := by
  have hne : l ≠ [] := by
    intro h
    rw [h] at h1
    exact absurd h1 (List.not_mem_nil e1)
  obtain ⟨h, t, hst, hbound⟩ := sortDesc_head_bound l hne
  refine ⟨h, by simp [selectLatest, hst], ?_, hbound, ?_⟩
  · have : h ∈ sortDesc l := by
      rw [hst]
      exact List.mem_cons_self h t
    exact (mem_sortDesc h l).mp this
  · intro heq
    have hb2 := hbound e2 h2
    rw [heq] at hb2
    exact absurd (lt_of_lt_of_le hlt hb2) (lt_irrefl _)

/-- Witness for C1 at a concrete two-event fetch. -/
theorem selectLatest_newest_wins_witness :
    ∃ e, selectLatest
        [{ created_at := some 10, pubkey := "p", content := "old" },
         { created_at := some 20, pubkey := "p", content := "new" }] = some e ∧
      e ∈ [{ created_at := some 10, pubkey := "p", content := "old" },
           { created_at := some 20, pubkey := "p", content := "new" }] ∧
      (∀ y ∈ [({ created_at := some 10, pubkey := "p", content := "old" } : NostrEvent),
              { created_at := some 20, pubkey := "p", content := "new" }],
        eventKey y ≤ eventKey e) ∧
      e ≠ { created_at := some 10, pubkey := "p", content := "old" } :=
  selectLatest_newest_wins
    [{ created_at := some 10, pubkey := "p", content := "old" },
     { created_at := some 20, pubkey := "p", content := "new" }]
    { created_at := some 10, pubkey := "p", content := "old" }
    { created_at := some 20, pubkey := "p", content := "new" }
    (by simp) (by simp) (by decide)

/-- C6 counterexample: a well-known response mapping the local part to a
64-character string of "Z"s — not lowercase hex — is accepted and
returned by `resolveNip05`, so the resolver does not require the value
to be a lowercase-hex key. -/
theorem resolveNip05_cex :
    resolveNip05 "alice@example.com"
        (fun _ _ => FetchOutcome.success
          { ok := true,
            names := some [("alice", JsonValue.str (String.mk (List.replicate 64 'Z')))] })
      = some (String.mk (List.replicate 64 'Z')) ∧
    isLowercaseHex (String.mk (List.replicate 64 'Z')) = false := by
  constructor
  · decide
  · decide

/-- C6 (amended): `resolveNip05` returns a key only when the identifier
splits into exactly a local part and a domain, the well-known fetch
succeeded with an ok status and a `names` object, and the value found at
the case-sensitively matched local part is a string of exactly 64
characters (lowercase hex is NOT verified); and it returns null on every
network/timeout failure and on every non-ok response (never throwing,
being a total function of the fetch outcome). -/
theorem resolveNip05_unfold (identifier : String)
    (fetch : String → String → FetchOutcome) (name domain : String)
    (h : (splitOnChar '@' identifier.toList).map String.mk = [name, domain]) :
    resolveNip05 identifier fetch =
      lookupPubkey (localPartOf name) (fetch domain (localPartOf name)) := by
  unfold resolveNip05
  rw [h]

theorem lookupPubkey_some (localPart : String) (outcome : FetchOutcome) (pk : String)
    (h : lookupPubkey localPart outcome = some pk) :
    pk.length = 64 ∧
    ∃ ns v, outcome = FetchOutcome.success { ok := true, names := some ns } ∧
      ns.find? (fun p => p.1 = localPart) = some v ∧ v.2 = JsonValue.str pk := by
  cases outcome with
  | failure => exact Option.noConfusion h
  | success r =>
    obtain ⟨ok, names⟩ := r
    cases ok with
    | false => exact Option.noConfusion h
    | true =>
      cases names with
      | none => exact Option.noConfusion h
      | some ns =>
        have h' : (match ns.find? (fun p => p.1 = localPart) with
            | some (_, JsonValue.str pk) => if pk.length = 64 then some pk else none
            | _ => none) = some pk := h
        match hfind : ns.find? (fun p => p.1 = localPart) with
        | none => rw [hfind] at h'; exact Option.noConfusion h'
        | some (k, JsonValue.nonString) => rw [hfind] at h'; exact Option.noConfusion h'
        | some (k, JsonValue.str s) =>
          rw [hfind] at h'
          have h'' : (if s.length = 64 then some s else none) = some pk := h'
          by_cases hlen : s.length = 64
          · rw [if_pos hlen] at h''
            obtain rfl : s = pk := Option.some.inj h''
            exact ⟨hlen, ns, (k, JsonValue.str s), rfl, hfind, rfl⟩
          · rw [if_neg hlen] at h''
            exact Option.noConfusion h''

/-- C6 (amended): `resolveNip05` returns a key only when the identifier
splits into exactly a local part and a domain, the well-known fetch
succeeded with an ok status and a `names` object, and the value found at
the case-sensitively matched local part is a string of exactly 64
characters (lowercase hex is NOT verified); and it returns null on every
network/timeout failure and on every non-ok response (never throwing,
being a total function of the fetch outcome). -/
theorem resolveNip05_spec (identifier : String)
    (fetch : String → String → FetchOutcome) :
    (∀ pk, resolveNip05 identifier fetch = some pk →
      pk.length = 64 ∧
      ∃ name domain ns v,
        (splitOnChar '@' identifier.toList).map String.mk = [name, domain] ∧
        fetch domain (localPartOf name) = FetchOutcome.success { ok := true, names := some ns } ∧
        ns.find? (fun p => p.1 = localPartOf name) = some v ∧
        v.2 = JsonValue.str pk) ∧
    (∀ name domain, (splitOnChar '@' identifier.toList).map String.mk = [name, domain] →
      fetch domain (localPartOf name) = FetchOutcome.failure →
      resolveNip05 identifier fetch = none) ∧
    (∀ name domain r, (splitOnChar '@' identifier.toList).map String.mk = [name, domain] →
      fetch domain (localPartOf name) = FetchOutcome.success r → r.ok = false →
      resolveNip05 identifier fetch = none) := by
  refine ⟨?_, ?_, ?_⟩
  · intro pk hpk
    unfold resolveNip05 at hpk
    match hsplit : (splitOnChar '@' identifier.toList).map String.mk with
    | [] =>
      rw [hsplit] at hpk
      exact Option.noConfusion hpk
    | [_] =>
      rw [hsplit] at hpk
      exact Option.noConfusion hpk
    | _ :: _ :: _ :: _ =>
      rw [hsplit] at hpk
      exact Option.noConfusion hpk
    | [name, domain] =>
      rw [hsplit] at hpk
      have hpk' : lookupPubkey (localPartOf name) (fetch domain (localPartOf name)) = some pk :=
        hpk
      obtain ⟨hlen, ns, v, hout, hfind, hv⟩ := lookupPubkey_some _ _ _ hpk'
      exact ⟨hlen, name, domain, ns, v, rfl, hout, hfind, hv⟩
  · intro name domain hsplit hf
    rw [resolveNip05_unfold identifier fetch name domain hsplit, hf]
    rfl
  · intro name domain r hsplit hf hok
    rw [resolveNip05_unfold identifier fetch name domain hsplit, hf]
    obtain ⟨ok, names⟩ := r
    cases ok with
    | false => rfl
    | true => exact Bool.noConfusion hok

/-- Witness for the amended C6 statement: a failing fetch at a concrete
identifier yields null. -/
theorem resolveNip05_spec_witness :
    resolveNip05 "alice@example.com" (fun _ _ => FetchOutcome.failure) = none :=
  (resolveNip05_spec "alice@example.com" (fun _ _ => FetchOutcome.failure)).2.1
    "alice" "example.com" (by decide) rfl

/-- The oldest entry is empty exactly on the empty cache. -/
theorem oldestEntry_eq_none (c : TreeCache) : oldestEntry c = none ↔ c = [] := by
  cases c with
  | nil => simp [oldestEntry]
  | cons p rest =>
    constructor
    · intro h
      unfold oldestEntry at h
      cases hr : oldestEntry rest with
      | none =>
        rw [hr] at h
        exact Option.noConfusion h
      | some q =>
        rw [hr] at h
        have h' : (if p.2.ts ≤ q.2.ts then some p else some q) = none := h
        by_cases hts : p.2.ts ≤ q.2.ts
        · rw [if_pos hts] at h'
          exact Option.noConfusion h'
        · rw [if_neg hts] at h'
          exact Option.noConfusion h'
    · intro h
      exact List.noConfusion h

/-- The selected oldest entry belongs to the cache and has the minimal
insertion timestamp. -/
theorem oldestEntry_min (c : TreeCache) (q : String × CacheEntry)
    (h : oldestEntry c = some q) : q ∈ c ∧ ∀ p ∈ c, q.2.ts ≤ p.2.ts := by
  induction c generalizing q with
  | nil => exact Option.noConfusion h
  | cons p rest ih =>
    unfold oldestEntry at h
    cases hr : oldestEntry rest with
    | none =>
      rw [hr] at h
      obtain rfl : p = q := Option.some.inj h
      have hempty : rest = [] := (oldestEntry_eq_none rest).mp hr
      subst hempty
      exact ⟨List.mem_cons_self p [], by simp⟩
    | some q' =>
      rw [hr] at h
      have h' : (if p.2.ts ≤ q'.2.ts then some p else some q') = some q := h
      obtain ⟨hmem', hmin'⟩ := ih q' hr
      by_cases hts : p.2.ts ≤ q'.2.ts
      · rw [if_pos hts] at h'
        obtain rfl : p = q := Option.some.inj h'
        refine ⟨List.mem_cons_self p rest, ?_⟩
        intro x hx
        rcases List.mem_cons.mp hx with rfl | hx'
        · exact le_refl _
        · exact le_trans hts (hmin' x hx')
      · rw [if_neg hts] at h'
        obtain rfl : q' = q := Option.some.inj h'
        refine ⟨List.mem_cons_of_mem p hmem', ?_⟩
        intro x hx
        rcases List.mem_cons.mp hx with rfl | hx'
        · exact le_of_lt (lt_of_not_le hts)
        · exact hmin' x hx'

/-- Removing one present key from a cache with no duplicate keys drops
exactly one entry. -/
theorem filter_key_length (c : TreeCache) (k : String)
    (hnd : (c.map Prod.fst).Nodup) (hk : k ∈ c.map Prod.fst) :
    (c.filter (fun p => p.1 ≠ k)).length + 1 = c.length := by
  induction c with
  | nil => exact absurd hk (List.not_mem_nil k)
  | cons x rest ih =>
    rw [List.map_cons, List.nodup_cons] at hnd
    obtain ⟨hx_notin, hnd'⟩ := hnd
    by_cases hx : x.1 = k
    · have hrest : rest.filter (fun p => p.1 ≠ k) = rest := by
        apply List.filter_eq_self.mpr
        intro a ha
        have : a.1 ∈ rest.map Prod.fst := List.mem_map_of_mem Prod.fst ha
        have hne : a.1 ≠ k := by
          intro he
          rw [he, ← hx] at this
          exact hx_notin this
        simpa using hne
      have hcond : (decide (x.1 ≠ k)) = false := by
        simp [hx]
      have hxdrop : (x :: rest).filter (fun p => p.1 ≠ k) = rest := by
        rw [List.filter_cons, hcond, if_neg Bool.false_ne_true]
        exact hrest
      rw [hxdrop, List.length_cons]
    · have hk' : k ∈ rest.map Prod.fst := by
        rcases List.mem_map.mp hk with ⟨a, ha, hak⟩
        rcases List.mem_cons.mp ha with rfl | ha'
        · exact absurd hak hx
        · rw [← hak]
          exact List.mem_map_of_mem Prod.fst ha'
      have hxkeep : (x :: rest).filter (fun p => p.1 ≠ k) =
          x :: rest.filter (fun p => p.1 ≠ k) := by
        rw [List.filter_cons]
        simp [hx]
      rw [hxkeep, List.length_cons, List.length_cons, ih hnd' hk']

/-- `find?` skips a prefix on which the predicate is everywhere false. -/
theorem find?_append_all_false (l1 l2 : TreeCache) (p : String × CacheEntry → Bool)
    (h : ∀ x ∈ l1, p x = false) :
    (l1 ++ l2).find? p = l2.find? p := by
  induction l1 with
  | nil => rfl
  | cons x rest ih =>
    rw [List.cons_append, List.find?_cons, h x (List.mem_cons_self x rest)]
    exact ih (fun y hy => h y (List.mem_cons_of_mem x hy))

/-- C8: the slug-document cache has capacity 10 and a 30-second TTL —
for every cache state holding exactly 10 entries (with the unique keys a
JS object guarantees), inserting an entry under a key not yet present
evicts exactly the single entry with the smallest insertion timestamp
and nothing else (the remaining entries are preserved in order and the
size stays 10), and a `get` of the inserted key at any time before the
TTL elapses returns the inserted value. -/
theorem treeCache_capacity_ttl (cache : TreeCache) (now : Nat) (slug : String)
    (d : NostreeDataV2)
    (hlen : cache.length = 10)
    (hnodup : (cache.map Prod.fst).Nodup)
    (hfresh : ∀ p ∈ cache, p.1 ≠ slug) :
    ∃ q, oldestEntry cache = some q ∧ q ∈ cache ∧
      (∀ p ∈ cache, q.2.ts ≤ p.2.ts) ∧
      setCachedTree cache now slug d
        = cache.filter (fun p => p.1 ≠ q.1) ++ [(slug, { data := d, ts := now })] ∧
      (setCachedTree cache now slug d).length = 10 ∧
      (∀ later, later - now < TREE_CACHE_TTL →
        getCachedTree (setCachedTree cache now slug d) later slug = some d) := by
  have hne : cache ≠ [] := by
    intro h
    rw [h] at hlen
    exact Nat.noConfusion hlen
  obtain ⟨q, hq⟩ : ∃ q, oldestEntry cache = some q := by
    cases ho : oldestEntry cache with
    | none => exact absurd ((oldestEntry_eq_none cache).mp ho) hne
    | some q => exact ⟨q, rfl⟩
  obtain ⟨hqmem, hqmin⟩ := oldestEntry_min cache q hq
  have hfilter_fresh : ∀ p ∈ cache.filter (fun p => p.1 ≠ q.1), p.1 ≠ slug :=
    fun p hp => hfresh p (List.mem_of_mem_filter hp)
  have hany : (cache.filter (fun p => p.1 ≠ q.1)).any (fun p => p.1 = slug) = false := by
    rw [Bool.eq_false_iff]
    intro hc
    obtain ⟨x, hx, hxs⟩ := List.any_eq_true.mp hc
    exact hfilter_fresh x hx (by simpa using hxs)
  have hev : evictIfFull cache = cache.filter (fun p => p.1 ≠ q.1) := by
    unfold evictIfFull
    rw [if_pos (by rw [hlen]), hq]
  have heq : setCachedTree cache now slug d
      = cache.filter (fun p => p.1 ≠ q.1) ++ [(slug, { data := d, ts := now })] := by
    unfold setCachedTree
    rw [hev]
    unfold setKey
    rw [hany, if_neg Bool.false_ne_true]
  have hflen : (cache.filter (fun p => p.1 ≠ q.1)).length + 1 = 10 := by
    rw [filter_key_length cache q.1 hnodup (List.mem_map_of_mem Prod.fst hqmem), hlen]
  refine ⟨q, hq, hqmem, hqmin, heq, ?_, ?_⟩
  · rw [heq, List.length_append, List.length_singleton]
    exact hflen
  · intro later hlater
    rw [heq]
    have hfind : ((cache.filter (fun p => p.1 ≠ q.1)) ++
          [(slug, ({ data := d, ts := now } : CacheEntry))]).find?
          (fun p : String × CacheEntry => p.1 = slug)
        = some (slug, { data := d, ts := now }) := by
      rw [find?_append_all_false _ _ _
        (fun x hx => by simpa using hfilter_fresh x hx)]
      simp [List.find?_cons]
    unfold getCachedTree
    rw [hfind]
    exact if_pos hlater

/-- A concrete 10-entry cache used to witness C8. -/
def sampleDoc (n : Nat) : NostreeDataV2 :=
  { version := "2.0"
    treeMeta := { slug := "s", title := none, isDefault := false, createdAt := n,
                  deletedAt := none }
    profile := none
    links := []
    socials := []
    theme := { mode := "light"
               colors := { background := "#fff", foreground := "#000",
                           primary := "#000", radius := "0.5rem" }
               font := "Inter" } }

/-- Ten cached trees with distinct keys; key "k3" has the smallest ts. -/
def sampleCache : TreeCache :=
  [("k0", { data := sampleDoc 0, ts := 40 }),
   ("k1", { data := sampleDoc 1, ts := 31 }),
   ("k2", { data := sampleDoc 2, ts := 32 }),
   ("k3", { data := sampleDoc 3, ts := 3 }),
   ("k4", { data := sampleDoc 4, ts := 34 }),
   ("k5", { data := sampleDoc 5, ts := 35 }),
   ("k6", { data := sampleDoc 6, ts := 36 }),
   ("k7", { data := sampleDoc 7, ts := 37 }),
   ("k8", { data := sampleDoc 8, ts := 38 }),
   ("k9", { data := sampleDoc 9, ts := 39 })]

/-- Witness for C8 on the concrete 10-entry cache. -/
theorem treeCache_capacity_ttl_witness :
    ∃ q, oldestEntry sampleCache = some q ∧ q ∈ sampleCache ∧
      (∀ p ∈ sampleCache, q.2.ts ≤ p.2.ts) ∧
      setCachedTree sampleCache 100 "fresh" (sampleDoc 10)
        = sampleCache.filter (fun p => p.1 ≠ q.1) ++
            [("fresh", { data := sampleDoc 10, ts := 100 })] ∧
      (setCachedTree sampleCache 100 "fresh" (sampleDoc 10)).length = 10 ∧
      (∀ later, later - 100 < TREE_CACHE_TTL →
        getCachedTree (setCachedTree sampleCache 100 "fresh" (sampleDoc 10)) later "fresh"
          = some (sampleDoc 10)) :=
  treeCache_capacity_ttl sampleCache 100 "fresh" (sampleDoc 10)
    (by decide) (by decide) (by decide)

/-- `allLinksOf` distributes over append. -/
theorem allLinksOf_append (a b : List LinkItem) :
    allLinksOf (a ++ b) = allLinksOf a ++ allLinksOf b := by
  induction a with
  | nil => rfl
  | cons it rest ih =>
    show linksOfItem it ++ allLinksOf (rest ++ b) = linksOfItem it ++ allLinksOf rest ++ allLinksOf b
    rw [ih, List.append_assoc]

/-- Root links contribute themselves. -/
theorem allLinksOf_map_link (ls : List Link) :
    allLinksOf (ls.map LinkItem.link) = ls := by
  induction ls with
  | nil => rfl
  | cons l rest ih =>
    simp only [List.map_cons, allLinksOf, linksOfItem, ih, List.singleton_append]

/-- An append equal to a singleton splits on one side. -/
theorem append_eq_single {α : Type} (l1 l2 : List α) (x : α) (h : l1 ++ l2 = [x]) :
    (l1 = [] ∧ l2 = [x]) ∨ (l1 = [x] ∧ l2 = []) := by
  cases l1 with
  | nil => exact Or.inl ⟨rfl, h⟩
  | cons a t =>
    rw [List.cons_append] at h
    have h1 : a = x := (List.cons.inj h).1
    have h2 : t ++ l2 = [] := (List.cons.inj h).2
    obtain ⟨rfl, rfl⟩ := List.append_eq_nil.mp h2
    rw [h1]
    exact Or.inr ⟨rfl, rfl⟩

/-- A filter with a singleton result pins down `find?`. -/
theorem find?_of_filter_single {α : Type} (p : α → Bool) (xs : List α) (x : α)
    (h : xs.filter p = [x]) : xs.find? p = some x := by
  induction xs with
  | nil => exact List.noConfusion h
  | cons a rest ih =>
    rw [List.filter_cons] at h
    by_cases hp : p a = true
    · rw [if_pos hp] at h
      rw [List.find?_cons_of_pos _ hp, (List.cons.inj h).1]
    · rw [if_neg hp] at h
      rw [List.find?_cons_of_neg _ (by simpa using hp)]
      exact ih h

/-- A filter with an empty result forces `find?` to miss. -/
theorem find?_of_filter_nil {α : Type} (p : α → Bool) (xs : List α)
    (h : xs.filter p = []) : xs.find? p = none := by
  rw [List.find?_eq_none]
  intro x hx
  have := List.filter_eq_nil_iff.mp h x hx
  simpa using this

/-- Filtering by the negation keeps everything when nothing matched. -/
theorem filter_not_of_filter_nil {α : Type} (p : α → Bool) (xs : List α)
    (h : xs.filter p = []) : xs.filter (fun a => !(p a)) = xs := by
  apply List.filter_eq_self.mpr
  intro a ha
  have := List.filter_eq_nil_iff.mp h a ha
  simpa using this

/-- The list part of phase 1 is the root-level filter. -/
theorem extractRootLink_fst (linkId : String) (state : List LinkItem) :
    (extractRootLink linkId state).1
      = state.filter (fun it => !(isRootLinkWithId linkId it)) := by
  induction state with
  | nil => rfl
  | cons it rest ih =>
    cases it with
    | group g => simp [extractRootLink, List.filter_cons, isRootLinkWithId, ih]
    | link l =>
      by_cases hl : l.id = linkId
      · simp [extractRootLink, List.filter_cons, isRootLinkWithId, hl, ih]
      · simp [extractRootLink, List.filter_cons, isRootLinkWithId, hl, ih]

/-- The list part of phase 2 cleans every group. -/
theorem extractFromGroups_fst (linkId : String) (state : List LinkItem) :
    (extractFromGroups linkId state).1 = state.map (cleanGroupsItem linkId) := by
  induction state with
  | nil => rfl
  | cons it rest ih =>
    cases it with
    | link l => simp [extractFromGroups, cleanGroupsItem, ih]
    | group g =>
      cases hf : g.links.find? (fun l => l.id = linkId) with
      | some found => simp [extractFromGroups, hf, cleanGroupsItem, ih]
      | none =>
        have hkeep : g.links.filter (fun l => !(decide (l.id = linkId))) = g.links := by
          apply List.filter_eq_self.mpr
          intro a ha
          have := List.find?_eq_none.mp hf a ha
          simpa using this
        simp [extractFromGroups, hf, cleanGroupsItem, hkeep, ih]

/-- `withoutLink` equals the spec-side removal from root and groups. -/
theorem moveRemoved_eq (linkId : String) (state : List LinkItem) :
    moveRemoved linkId state = removeLinkEverywhere linkId state := by
  unfold moveRemoved removeLinkEverywhere
  rw [extractFromGroups_fst, extractRootLink_fst]

/-- When the id occurs nowhere, phase 1 captures nothing and keeps the
state intact. -/
theorem extractRootLink_no_occ (linkId : String) (state : List LinkItem)
    (h : (allLinksOf state).filter (fun x => x.id = linkId) = []) :
    extractRootLink linkId state = (state, none) := by
  induction state with
  | nil => rfl
  | cons it rest ih =>
    rw [show allLinksOf (it :: rest) = linksOfItem it ++ allLinksOf rest from rfl,
      List.filter_append] at h
    obtain ⟨hhd, htl⟩ := List.append_eq_nil.mp h
    cases it with
    | group g => simp [extractRootLink, ih htl]
    | link l =>
      have hl : ¬(l.id = linkId) := by
        have h1 : ([l] : List Link).filter (fun x => x.id = linkId) = [] := hhd
        simpa [List.filter_cons] using h1
      simp [extractRootLink, hl, ih htl]

/-- When the id occurs nowhere, phase 2 captures nothing and keeps the
state intact. -/
theorem extractFromGroups_no_occ (linkId : String) (state : List LinkItem)
    (h : (allLinksOf state).filter (fun x => x.id = linkId) = []) :
    extractFromGroups linkId state = (state, none) := by
  induction state with
  | nil => rfl
  | cons it rest ih =>
    rw [show allLinksOf (it :: rest) = linksOfItem it ++ allLinksOf rest from rfl,
      List.filter_append] at h
    obtain ⟨hhd, htl⟩ := List.append_eq_nil.mp h
    cases it with
    | link l => simp [extractFromGroups, ih htl]
    | group g =>
      have hf : g.links.find? (fun l => l.id = linkId) = none :=
        find?_of_filter_nil _ _ hhd
      simp [extractFromGroups, hf, ih htl]

/-- When the id occurs nowhere, no link is captured. -/
theorem moveCaptured_no_occ (linkId : String) (state : List LinkItem)
    (h : (allLinksOf state).filter (fun x => x.id = linkId) = []) :
    moveCaptured linkId state = none := by
  unfold moveCaptured
  rw [extractRootLink_no_occ linkId state h]
  show (extractFromGroups linkId state).2.orElse (fun _ => none) = none
  rw [extractFromGroups_no_occ linkId state h]
  rfl

/-- When the id occurs exactly once among all links, that link is the one
captured by the two passes. -/
theorem moveCaptured_single (linkId : String) (l : Link) (state : List LinkItem)
    (h : (allLinksOf state).filter (fun x => x.id = linkId) = [l]) :
    moveCaptured linkId state = some l := by
  induction state with
  | nil => exact List.noConfusion h
  | cons it rest ih =>
    rw [show allLinksOf (it :: rest) = linksOfItem it ++ allLinksOf rest from rfl,
      List.filter_append] at h
    cases it with
    | link l0 =>
      by_cases hl0 : l0.id = linkId
      · have hhd : (linksOfItem (LinkItem.link l0)).filter (fun x => x.id = linkId) = [l0] := by
          simp [linksOfItem, List.filter_cons, hl0]
        rw [hhd, List.singleton_append] at h
        have h1 : l0 = l := (List.cons.inj h).1
        have h2 : (allLinksOf rest).filter (fun x => x.id = linkId) = [] := (List.cons.inj h).2
        subst h1
        have hroot := extractRootLink_no_occ linkId rest h2
        have hgrp := extractFromGroups_no_occ linkId rest h2
        simp [moveCaptured, extractRootLink, hl0, hroot, hgrp, Option.orElse]
      · have hhd : (linksOfItem (LinkItem.link l0)).filter (fun x => x.id = linkId) = [] := by
          simp [linksOfItem, List.filter_cons, hl0]
        rw [hhd, List.nil_append] at h
        have hstep : moveCaptured linkId (LinkItem.link l0 :: rest)
            = moveCaptured linkId rest := by
          simp [moveCaptured, extractRootLink, extractFromGroups, hl0]
        rw [hstep]
        exact ih h
    | group g =>
      rcases append_eq_single _ _ _ h with ⟨hhd, htl⟩ | ⟨hhd, htl⟩
      · have hf : g.links.find? (fun l => l.id = linkId) = none :=
          find?_of_filter_nil _ _ hhd
        have hstep : moveCaptured linkId (LinkItem.group g :: rest)
            = moveCaptured linkId rest := by
          simp [moveCaptured, extractRootLink, extractFromGroups, hf]
        rw [hstep]
        exact ih htl
      · have hf : g.links.find? (fun l => l.id = linkId) = some l :=
          find?_of_filter_single _ _ _ hhd
        have hroot := extractRootLink_no_occ linkId rest htl
        have hgrp := extractFromGroups_no_occ linkId rest htl
        simp [moveCaptured, extractRootLink, extractFromGroups, hf, hroot, hgrp, Option.orElse]

/-- Appending at root puts the link into the document. -/
theorem mem_addToTarget_root (items : List LinkItem) (l : Link) :
    l ∈ allLinksOf (addToTarget items none l) := by
  show l ∈ allLinksOf (items ++ [LinkItem.link l])
  rw [allLinksOf_append]
  apply List.mem_append_right
  simp [allLinksOf, linksOfItem]

/-- Appending into a present target group puts the link into the
document. -/
theorem mem_addToTarget_group (items : List LinkItem) (gid : String) (l : Link)
    (h : items.any (isGroupWithId gid) = true) :
    l ∈ allLinksOf (addToTarget items (some gid) l) := by
  induction items with
  | nil => exact absurd h (by simp)
  | cons it rest ih =>
    rw [List.any_cons] at h
    cases it with
    | link l0 =>
      have h' : rest.any (isGroupWithId gid) = true := by
        simpa [isGroupWithId] using h
      show l ∈ allLinksOf (LinkItem.link l0 :: addToTarget rest (some gid) l)
      show l ∈ linksOfItem (LinkItem.link l0) ++ allLinksOf (addToTarget rest (some gid) l)
      exact List.mem_append_right _ (ih h')
    | group g =>
      by_cases hg : g.id = gid
      · show l ∈ allLinksOf
          ((if g.id = gid then LinkItem.group { g with links := g.links ++ [l] }
            else LinkItem.group g) :: (addToTarget rest (some gid) l))
        rw [if_pos hg]
        show l ∈ (g.links ++ [l]) ++ allLinksOf (addToTarget rest (some gid) l)
        apply List.mem_append_left
        exact List.mem_append_right _ (List.mem_singleton_self l)
      · have h' : rest.any (isGroupWithId gid) = true := by
          simpa [isGroupWithId, hg] using h
        show l ∈ allLinksOf
          ((if g.id = gid then LinkItem.group { g with links := g.links ++ [l] }
            else LinkItem.group g) :: (addToTarget rest (some gid) l))
        rw [if_neg hg]
        show l ∈ linksOfItem (LinkItem.group g) ++ allLinksOf (addToTarget rest (some gid) l)
        exact List.mem_append_right _ (ih h')

/-- Removing a link never removes a group: a target group present before
the removal is still present after it. -/
theorem any_group_removeLink (linkId gid : String) (state : List LinkItem)
    (h : state.any (isGroupWithId gid) = true) :
    (removeLinkEverywhere linkId state).any (isGroupWithId gid) = true := by
  induction state with
  | nil => exact absurd h (by simp)
  | cons it rest ih =>
    rw [List.any_cons] at h
    cases it with
    | link l0 =>
      have h' : rest.any (isGroupWithId gid) = true := by
        simpa [isGroupWithId] using h
      by_cases hl : l0.id = linkId
      · have : removeLinkEverywhere linkId (LinkItem.link l0 :: rest)
            = removeLinkEverywhere linkId rest := by
          simp [removeLinkEverywhere, List.filter_cons, isRootLinkWithId, hl]
        rw [this]
        exact ih h'
      · have : removeLinkEverywhere linkId (LinkItem.link l0 :: rest)
            = LinkItem.link l0 :: removeLinkEverywhere linkId rest := by
          simp [removeLinkEverywhere, List.filter_cons, isRootLinkWithId, hl, cleanGroupsItem]
        rw [this, List.any_cons]
        simp [isGroupWithId, ih h']
    | group g =>
      have hstep : removeLinkEverywhere linkId (LinkItem.group g :: rest)
          = cleanGroupsItem linkId (LinkItem.group g) :: removeLinkEverywhere linkId rest := by
        simp [removeLinkEverywhere, List.filter_cons, isRootLinkWithId]
      rw [hstep, List.any_cons]
      by_cases hg : g.id = gid
      · simp [cleanGroupsItem, isGroupWithId, hg]
      · have h' : rest.any (isGroupWithId gid) = true := by
          simpa [isGroupWithId, hg] using h
        simp [cleanGroupsItem, isGroupWithId, hg, ih h']

/-- C4 counterexample: moving the only link of the document into a group
id that names no group removes the link without appending it anywhere —
the document that held one link becomes empty, instead of the claimed
"remove and append to the target". -/
theorem moveToGroup_missing_target_cex :
    moveToGroup
        [LinkItem.link { id := "a", title := "A", url := "u", emoji := none, visible := true }]
        "a" (some "g") = [] ∧
    allLinksOf (moveToGroup
        [LinkItem.link { id := "a", title := "A", url := "u", emoji := none, visible := true }]
        "a" (some "g")) = [] := by
  constructor
  · decide
  · decide

/-- C4 (amended): in a document whose links have unique ids, when no link
carries the id the mutation is a no-op; when exactly one link carries it
AND the target is the root or a group actually present in the document,
`moveToGroup` removes that link from wherever it resides and appends it
to the target (so the link is still in the document). -/
theorem moveToGroup_spec (state : List LinkItem) (linkId : String) (target : Option String) :
    ((allLinksOf state).filter (fun x => x.id = linkId) = [] →
      moveToGroup state linkId target = state) ∧
    (∀ l, (allLinksOf state).filter (fun x => x.id = linkId) = [l] →
      (target = none ∨ ∃ gid, target = some gid ∧ state.any (isGroupWithId gid) = true) →
      moveToGroup state linkId target
          = addToTarget (removeLinkEverywhere linkId state) target l ∧
        l ∈ allLinksOf (moveToGroup state linkId target)) := by
  constructor
  · intro h
    unfold moveToGroup
    rw [moveCaptured_no_occ linkId state h]
  · intro l hocc htarget
    have hcap := moveCaptured_single linkId l state hocc
    have heq : moveToGroup state linkId target
        = addToTarget (removeLinkEverywhere linkId state) target l := by
      unfold moveToGroup
      rw [hcap]
      cases target with
      | none =>
        show moveRemoved linkId state ++ [LinkItem.link l] = _
        rw [moveRemoved_eq]
        rfl
      | some gid =>
        show (moveRemoved linkId state).map _ = _
        rw [moveRemoved_eq]
        rfl
    refine ⟨heq, ?_⟩
    rw [heq]
    rcases htarget with rfl | ⟨gid, rfl, hany⟩
    · exact mem_addToTarget_root _ l
    · exact mem_addToTarget_group _ gid l (any_group_removeLink linkId gid state hany)

/-- Witness for the amended C4 statement: moving a group-contained link
to the root on a concrete document. -/
theorem moveToGroup_spec_witness :
    moveToGroup
        [LinkItem.link { id := "a", title := "A", url := "u", emoji := none, visible := true },
         LinkItem.group { id := "g", title := "G", emoji := none, collapsed := false,
                          visible := true,
                          links := [{ id := "b", title := "B", url := "u", emoji := none,
                                      visible := true }] }]
        "b" none
      = addToTarget
          (removeLinkEverywhere "b"
            [LinkItem.link { id := "a", title := "A", url := "u", emoji := none,
                             visible := true },
             LinkItem.group { id := "g", title := "G", emoji := none, collapsed := false,
                              visible := true,
                              links := [{ id := "b", title := "B", url := "u", emoji := none,
                                          visible := true }] }])
          none { id := "b", title := "B", url := "u", emoji := none, visible := true } ∧
    { id := "b", title := "B", url := "u", emoji := none, visible := true } ∈
      allLinksOf (moveToGroup
        [LinkItem.link { id := "a", title := "A", url := "u", emoji := none, visible := true },
         LinkItem.group { id := "g", title := "G", emoji := none, collapsed := false,
                          visible := true,
                          links := [{ id := "b", title := "B", url := "u", emoji := none,
                                      visible := true }] }]
        "b" none) :=
  (moveToGroup_spec
    [LinkItem.link { id := "a", title := "A", url := "u", emoji := none, visible := true },
     LinkItem.group { id := "g", title := "G", emoji := none, collapsed := false,
                      visible := true,
                      links := [{ id := "b", title := "B", url := "u", emoji := none,
                                  visible := true }] }]
    "b" none).2
    { id := "b", title := "B", url := "u", emoji := none, visible := true }
    (by decide) (Or.inl rfl)

/-- When no group carries the id, `deleteGroup`'s pass captures nothing
and keeps the state intact. -/
theorem extractGroupLinks_no_match (gid : String) (state : List LinkItem)
    (h : state.filter (isGroupWithId gid) = []) :
    extractGroupLinks gid state = (state, none) := by
  induction state with
  | nil => rfl
  | cons it rest ih =>
    rw [List.filter_cons] at h
    cases it with
    | link l =>
      have hrest : rest.filter (isGroupWithId gid) = [] := by
        simpa [isGroupWithId] using h
      simp [extractGroupLinks, ih hrest]
    | group g =>
      by_cases hg : g.id = gid
      · rw [if_pos (by simp [isGroupWithId, hg])] at h
        exact List.noConfusion h
      · rw [if_neg (by simp [isGroupWithId, hg])] at h
        simp [extractGroupLinks, hg, ih h]

/-- When exactly one item is a group with the id, `deleteGroup`'s pass
removes it and captures its links. -/
theorem extractGroupLinks_single (gid : String) (grp : LinkGroup) (state : List LinkItem)
    (h : state.filter (isGroupWithId gid) = [LinkItem.group grp]) :
    extractGroupLinks gid state
      = (state.filter (fun it => !(isGroupWithId gid it)), some grp.links) := by
  induction state with
  | nil => exact List.noConfusion h
  | cons it rest ih =>
    rw [List.filter_cons] at h
    cases it with
    | link l =>
      have h' : rest.filter (isGroupWithId gid) = [LinkItem.group grp] := by
        simpa [isGroupWithId] using h
      simp [extractGroupLinks, List.filter_cons, isGroupWithId, ih h']
    | group g =>
      by_cases hg : g.id = gid
      · rw [if_pos (by simp [isGroupWithId, hg])] at h
        have hgrp : LinkItem.group g = LinkItem.group grp := (List.cons.inj h).1
        have hrest : rest.filter (isGroupWithId gid) = [] := (List.cons.inj h).2
        obtain rfl : g = grp := LinkItem.group.inj hgrp
        have hkeep := filter_not_of_filter_nil (isGroupWithId gid) rest hrest
        have hng := extractGroupLinks_no_match gid rest hrest
        show (if g.id = gid then
            ((extractGroupLinks gid rest).1,
              some ((extractGroupLinks gid rest).2.getD g.links))
          else (LinkItem.group g :: (extractGroupLinks gid rest).1,
              (extractGroupLinks gid rest).2)) = _
        rw [if_pos hg, hng, List.filter_cons, if_neg (by simp [isGroupWithId, hg]), hkeep]
        rfl
      · rw [if_neg (by simp [isGroupWithId, hg])] at h
        simp [extractGroupLinks, hg, List.filter_cons, isGroupWithId, ih h]

/-- Relocating the unique matching group's links to the root is a
permutation of the document's links. -/
theorem deleteGroup_perm_aux (gid : String) (grp : LinkGroup) (state : List LinkItem)
    (h : state.filter (isGroupWithId gid) = [LinkItem.group grp]) :
    (allLinksOf (state.filter (fun it => !(isGroupWithId gid it))) ++ grp.links).Perm
      (allLinksOf state) := by
  induction state with
  | nil => exact List.noConfusion h
  | cons it rest ih =>
    rw [List.filter_cons] at h
    by_cases hq : isGroupWithId gid it = true
    · rw [if_pos hq] at h
      have hit : it = LinkItem.group grp := (List.cons.inj h).1
      have hrest : rest.filter (isGroupWithId gid) = [] := (List.cons.inj h).2
      subst hit
      have hkeep := filter_not_of_filter_nil (isGroupWithId gid) rest hrest
      rw [List.filter_cons, if_neg (by simp [hq]), hkeep]
      show (allLinksOf rest ++ grp.links).Perm
        (linksOfItem (LinkItem.group grp) ++ allLinksOf rest)
      exact List.perm_append_comm
    · rw [if_neg hq] at h
      rw [List.filter_cons, if_pos (by simp [hq])]
      show ((linksOfItem it ++ allLinksOf (rest.filter (fun it => !(isGroupWithId gid it))))
          ++ grp.links).Perm (linksOfItem it ++ allLinksOf rest)
      rw [List.append_assoc]
      exact List.Perm.append_left _ (ih h)

/-- C5: for every document in which exactly one item is a group with id
`gid` (ids are unique in well-formed documents), `deleteGroup` removes
that group, relocates its contained links to the end of the root level
in their original relative order, and preserves the multiset of all
links in the document — no link is lost or duplicated. -/
theorem deleteGroup_spec (state : List LinkItem) (gid : String) (grp : LinkGroup)
    (h : state.filter (isGroupWithId gid) = [LinkItem.group grp]) :
    deleteGroup state gid
        = state.filter (fun it => !(isGroupWithId gid it)) ++ grp.links.map LinkItem.link ∧
    (allLinksOf (deleteGroup state gid)).Perm (allLinksOf state) := by
  have hx := extractGroupLinks_single gid grp state h
  have heq : deleteGroup state gid
      = state.filter (fun it => !(isGroupWithId gid it)) ++ grp.links.map LinkItem.link := by
    unfold deleteGroup
    rw [hx]
    rfl
  refine ⟨heq, ?_⟩
  rw [heq, allLinksOf_append, allLinksOf_map_link]
  exact deleteGroup_perm_aux gid grp state h

/-- Witness for C5 on a concrete document with one group of two links. -/
theorem deleteGroup_spec_witness :
    deleteGroup
        [LinkItem.link { id := "a", title := "A", url := "u", emoji := none, visible := true },
         LinkItem.group { id := "g", title := "G", emoji := none, collapsed := false,
                          visible := true,
                          links := [{ id := "b", title := "B", url := "u", emoji := none,
                                      visible := true },
                                    { id := "c", title := "C", url := "u", emoji := none,
                                      visible := true }] },
         LinkItem.link { id := "d", title := "D", url := "u", emoji := none, visible := true }]
        "g"
      = [LinkItem.link { id := "a", title := "A", url := "u", emoji := none, visible := true },
         LinkItem.link { id := "d", title := "D", url := "u", emoji := none, visible := true },
         LinkItem.link { id := "b", title := "B", url := "u", emoji := none, visible := true },
         LinkItem.link { id := "c", title := "C", url := "u", emoji := none,
                         visible := true }] ∧
    (allLinksOf (deleteGroup
        [LinkItem.link { id := "a", title := "A", url := "u", emoji := none, visible := true },
         LinkItem.group { id := "g", title := "G", emoji := none, collapsed := false,
                          visible := true,
                          links := [{ id := "b", title := "B", url := "u", emoji := none,
                                      visible := true },
                                    { id := "c", title := "C", url := "u", emoji := none,
                                      visible := true }] },
         LinkItem.link { id := "d", title := "D", url := "u", emoji := none, visible := true }]
        "g")).Perm
      (allLinksOf
        [LinkItem.link { id := "a", title := "A", url := "u", emoji := none, visible := true },
         LinkItem.group { id := "g", title := "G", emoji := none, collapsed := false,
                          visible := true,
                          links := [{ id := "b", title := "B", url := "u", emoji := none,
                                      visible := true },
                                    { id := "c", title := "C", url := "u", emoji := none,
                                      visible := true }] },
         LinkItem.link { id := "d", title := "D", url := "u", emoji := none,
                         visible := true }]) := by
  have hmain := deleteGroup_spec
    [LinkItem.link { id := "a", title := "A", url := "u", emoji := none, visible := true },
     LinkItem.group { id := "g", title := "G", emoji := none, collapsed := false,
                      visible := true,
                      links := [{ id := "b", title := "B", url := "u", emoji := none,
                                  visible := true },
                                { id := "c", title := "C", url := "u", emoji := none,
                                  visible := true }] },
     LinkItem.link { id := "d", title := "D", url := "u", emoji := none, visible := true }]
    "g"
    { id := "g", title := "G", emoji := none, collapsed := false, visible := true,
      links := [{ id := "b", title := "B", url := "u", emoji := none, visible := true },
                { id := "c", title := "C", url := "u", emoji := none, visible := true }] }
    (by decide)
  exact ⟨by rw [hmain.1]; decide, hmain.2⟩

end Nostree
